import Mathlib

/-!
Verification of the `commandmocker` library (Go) against its specification.

The Go source (`mocker.go`) is shallowly embedded below.  Go strings are
modelled as `List Char` (the claims only involve byte-per-character text, so
the byte/char distinction is immaterial).  The process-wide mutable state of
the library — the `running` registry map, the `PATH` environment value and
the filesystem — is modelled by the explicit state record `MState`, threaded
through the operations.  Fallible host operations (`os.MkdirAll`,
`os.OpenFile`, `(*template.Template).Execute` writing to the file,
`os.Setenv`, `os.RemoveAll`) are given Boolean success oracles, since the Go
code branches on their errors.  `text/template.Parse` is applied to the fixed
constant template `source`, which always parses, so it gets no oracle.
-/

/-- Go strings, modelled as lists of characters. -/
abbrev GoStr := List Char

deriving instance DecidableEq for Except

/-- Boolean string-prefix test, modelling Go `strings.HasPrefix p s`
(written here as `isPre s p` : does `p` start with `s`?). -/
def isPre : GoStr → GoStr → Bool
  | [], _ => true
  | _ :: _, [] => false
  | a :: s, b :: t => a = b && isPre s t

/-- Position of the first occurrence of `sub` as a substring, modelling Go
`strings.Index hay sub` (with `none` for Go's `-1`). -/
def goIndex (sub : GoStr) : GoStr → Option Nat
  | [] => if isPre sub [] then some 0 else none
  | c :: t => if isPre sub (c :: t) then some 0 else (goIndex sub t).map (· + 1)

/-- Lookup in an association list, modelling a read `m[k]` of a Go
`map[string]string` (the registry `running`). -/
def lookupName : List (GoStr × GoStr) → GoStr → Option GoStr
  | [], _ => none
  | (k, v) :: t, n => if k = n then some v else lookupName t n

/-- Write `m[k] = v` on a Go map: the new binding replaces any old binding of
the same key.  The association list keeps at most one entry per key. -/
def insertMap (l : List (GoStr × GoStr)) (n d : GoStr) : List (GoStr × GoStr) :=
  (n, d) :: l.filter (fun p => !(p.1 == n))

/-- Splitting a character list at a separator character; used to speak about
the colon-delimited segments of `$PATH` and about the lines of a file.
`splitOnChar ':' "a:b"` is `["a", "b"]`; the result is never empty. -/
def splitOnChar (sep : Char) : List Char → List (List Char)
  | [] => [[]]
  | c :: t =>
    match splitOnChar sep t with
    | [] => [[]]
    | h :: r => if c = sep then [] :: h :: r else (c :: h) :: r

/-- Process-wide state of the library: the `running` registry (name →
directory), the value of the `PATH` environment variable, and the set of
existing filesystem paths. -/
structure MState where
  running : List (GoStr × GoStr)
  path : GoStr
  fs : List GoStr
  deriving DecidableEq

/-- Error outcomes of `add`, one per fallible operation whose error `add`
returns: `os.MkdirAll`, `os.OpenFile`, and `t.Execute` (a write failure while
rendering; parsing the constant template cannot fail). -/
inductive AddErr
  | mkdirFailed
  | openFailed
  | execFailed
  deriving DecidableEq

/-- The function `add(name, stdout, stderr string, status int)` of
`mocker.go`, modelled after its wait loop has been entered:

  - if `name` is registered, the Go code spins in `for { ... time.Sleep(1) }`
    and does not return; the model yields `none` (the interleaved behaviour
    of the wait loop is modelled separately by the transition system `AStep`);
  - otherwise it records `running[name] = tempdir` (under `runningMutex`),
    creates the directory, creates and renders the script file
    `tempdir/name`, and prepends `tempdir + ":"` to `$PATH`.

`tempdir` stands for the result of the random fresh-name loop (a path that
does not yet exist on disk).  `mkdirOk`, `openOk`, `execOk`, `setenvOk` are
the success oracles of `os.MkdirAll`, `os.OpenFile`, `t.Execute` and
`os.Setenv`.  Note the Go code assigns the `os.Setenv` error to `err` but
never checks it: a failed `Setenv` still yields the `(tempdir, nil)` return.
`stdout`, `stderr` and `status` only influence the rendered file's contents,
which the state does not track beyond the file's existence. -/
def add (st : MState) (name _stdout _stderr : GoStr) (_status : Int)
    (tempdir : GoStr) (mkdirOk openOk execOk setenvOk : Bool) :
    Option (Except AddErr GoStr × MState) :=
  if (lookupName st.running name).isSome then
    none
  else
    let running1 := insertMap st.running name tempdir
    if !mkdirOk then
      some (.error .mkdirFailed, { st with running := running1 })
    else
      let fs1 := tempdir :: st.fs
      if !openOk then
        some (.error .openFailed, { running := running1, path := st.path, fs := fs1 })
      else
        let fs2 := (tempdir ++ '/' :: name) :: fs1
        if !execOk then
          some (.error .execFailed, { running := running1, path := st.path, fs := fs2 })
        else
          let newpath := tempdir ++ ':' :: st.path
          some (.ok tempdir,
            { running := running1
              path := if setenvOk then newpath else st.path
              fs := fs2 })

/-- Outcomes of `Remove`: success, the two explicit error returns, the two
propagated errors of `os.Setenv` and `os.RemoveAll`, and the run-time fault
raised by the out-of-range slice `path[index+len(tempdir)+1:]`. -/
inductive RemoveResult
  | ok
  | invalidTarget
  | notInSearchPath
  | envError
  | rmFailed
  | panicked
  deriving DecidableEq

/-- Effect of `os.RemoveAll(d)` on the set of existing paths: `d` and
everything below it is deleted. -/
def removeAllFs (fs : List GoStr) (d : GoStr) : List GoStr :=
  fs.filter (fun p => !(p == d || isPre (d ++ ['/']) p))

/-- The deferred registry cleanup at the top of `Remove`: scan `running` for
a key whose value equals `tempdir` and delete that key.  Go map iteration
order is unspecified and the scan keeps the last match; with at most one
matching key (the only situation the claims concern) any iteration order
picks the same key, so the model takes the first match.  When no key matches,
the Go code executes `delete(running, "")`, which the model reproduces
(`k` defaults to the empty string). -/
def removeCleanup (running : List (GoStr × GoStr)) (tempdir : GoStr) :
    List (GoStr × GoStr) :=
  let k := ((running.find? (fun p => p.2 == tempdir)).map (fun p => p.1)).getD []
  running.filter (fun p => !(p.1 == k))

/-- The function `Remove(tempdir string)` of `mocker.go`.  `tmproot` is the
value of `os.TempDir()`, `setenvOk` and `rmOk` the success oracles of
`os.Setenv` and `os.RemoveAll`.  The deferred registry cleanup runs on every
exit, including the panic raised when `tempdir` is found at the very end of
`$PATH` and the slice upper bound `index+len(tempdir)+1` exceeds the
length of the path value.  `os.RemoveAll` deletes `tempdir` recursively on
success; partial deletion on a failed `RemoveAll` is not modelled (no claim
depends on the filesystem after a failed delete). -/
def Remove (st : MState) (tmproot tempdir : GoStr) (setenvOk rmOk : Bool) :
    RemoveResult × MState :=
  let running2 := removeCleanup st.running tempdir
  if !(isPre tmproot tempdir) then
    (.invalidTarget, { st with running := running2 })
  else
    match goIndex tempdir st.path with
    | none => (.notInSearchPath, { st with running := running2 })
    | some i =>
      if i + tempdir.length + 1 ≤ st.path.length then
        let newpath := st.path.take i ++ st.path.drop (i + tempdir.length + 1)
        if setenvOk then
          if rmOk then
            (.ok, { running := running2, path := newpath, fs := removeAllFs st.fs tempdir })
          else
            (.rmFailed, { running := running2, path := newpath, fs := st.fs })
        else
          (.envError, { running := running2, path := st.path, fs := st.fs })
      else
        (.panicked, { st with running := running2 })

/-- Name of the ran-marker file: `path.Join(tempdir, ".ran")` (the inputs the
library produces are cleaned absolute paths without trailing slash, on which
`path.Join` is plain concatenation with a separator). -/
def ranFile (tempdir : GoStr) : GoStr := tempdir ++ '/' :: (".ran".data)

/-- Result of `os.Stat`: success, a not-exist error, or any other error.
`errOther` is the case Go's `!os.IsNotExist(err)` distinguishes; the
filesystem model (a set of existing paths) answers every stat with `ok` or
`errNotExist`. -/
inductive StatResult
  | ok
  | errNotExist
  | errOther
  deriving DecidableEq

/-- Stat over the modelled filesystem. -/
def goStat (fs : List GoStr) (p : GoStr) : StatResult :=
  if p ∈ fs then .ok else .errNotExist

/-- The function `Ran(tempdir string) bool` of `mocker.go`:
`err == nil || !os.IsNotExist(err)` for `_, err := os.Stat(tempdir/.ran)`. -/
def Ran (fs : List GoStr) (tempdir : GoStr) : Bool :=
  match goStat fs (ranFile tempdir) with
  | .ok => true
  | .errNotExist => false
  | .errOther => true

/-!
The generated script (template `source` in `mocker.go`) records its
positional arguments with

    for i in "$@"; do $echo -- "$i" | sed -e (substitute "-- " by "")
    appended to ${dirname}/.params ; done

For each argument `a`, `echo -- "$a"` writes the text `"-- " ++ a ++ "\n"`;
the sed substitution reads that text line by line and deletes the first
occurrence of `"-- "` in each line (lines without an occurrence pass
unchanged), emitting every line with a trailing newline.  The loop appends
the result to `.params`.  `Parameters` then reads `.params` with a
`bufio.Scanner` using the default `ScanLines` split: one token per line,
a trailing carriage return dropped from each token, a final token without
terminating newline still delivered, and no empty token for the empty rest
after a final newline.
-/

/-- The literal `"-- "` used by the script's argument-logging line. -/
def ddash : GoStr := ['-', '-', ' ']

/-- Deletion of the first occurrence of `pat` from a line, modelling the
sed substitution of `pat` by the empty string applied to one line (a line
with no occurrence is unchanged). -/
def stripFirst (pat : GoStr) : GoStr → GoStr
  | [] => []
  | c :: rest =>
    if isPre pat (c :: rest) then (c :: rest).drop pat.length
    else c :: stripFirst pat rest

/-- Contents of the `.params` file after exactly one run of the generated
executable with argument vector `args`, the file having been absent before
the run: the concatenation, over the arguments in order, of the sed-filtered
lines of `"-- " ++ arg`, each emitted with a trailing newline. -/
def paramsContent (args : List GoStr) : GoStr :=
  args.flatMap (fun a =>
    (splitOnChar '\n' (ddash ++ a)).flatMap (fun ln => stripFirst ddash ln ++ ['\n']))

/-- Drop of one trailing carriage return, modelling `dropCR` inside
`bufio.ScanLines`. -/
def dropCR (l : GoStr) : GoStr :=
  match l.getLast? with
  | some c => if c = '\r' then l.dropLast else l
  | none => l

/-- Token sequence of a `bufio.Scanner` with the `ScanLines` split function
over the given file contents. -/
def scanLines (content : GoStr) : List GoStr :=
  let parts := splitOnChar '\n' content
  (if parts.getLast? = some [] then parts.dropLast else parts).map dropCR

/-- The function `Parameters(tempdir string) []string` of `mocker.go`,
as a function of the contents of `tempdir/.params` (`none` when the file
does not exist, in which case `Parameters` returns `nil`). -/
def Parameters (content : Option GoStr) : List GoStr :=
  match content with
  | none => []
  | some c => scanLines c

/-!
Concurrency model for the registration wait loop of `add`.  One thread of
interest `B` runs `add(nB, ...)` and will register directory `dB`; its
program counter walks through the two relevant atomic actions of the Go
code:

  - `check`: one iteration of the wait loop that finds `nB` absent — a read
    of `running` under `runningMutex.RLock` — after which the loop breaks;
  - `insert`: the write `running[nB] = dB` under `runningMutex.Lock`.

Nothing is atomic across the two, exactly as in the source.  The
environment (all other threads) can at any time perform the registry writes
the library performs: an unconditional `running[n] = d` (another `add` whose
own check already passed) or `Remove`'s deferred cleanup for a directory. -/

/-- Program counter of the thread running the second `add` call. -/
inductive Phase
  | checking
  | inserting
  | done
  deriving DecidableEq

/-- State of the concurrency model: the shared registry plus thread `B`'s
program counter. -/
structure CState where
  reg : List (GoStr × GoStr)
  pcB : Phase
  deriving DecidableEq

/-- Interleaved small-step transitions: thread `B`'s two atomic actions and
the environment's registry writes. -/
inductive AStep (nB dB : GoStr) : CState → CState → Prop
  | check (s : CState) (hpc : s.pcB = .checking)
      (hfree : lookupName s.reg nB = none) :
      AStep nB dB s { s with pcB := .inserting }
  | insert (s : CState) (hpc : s.pcB = .inserting) :
      AStep nB dB s { reg := insertMap s.reg nB dB, pcB := .done }
  | envInsert (s : CState) (n d : GoStr) :
      AStep nB dB s { s with reg := insertMap s.reg n d }
  | envRemove (s : CState) (d : GoStr) :
      AStep nB dB s { s with reg := removeCleanup s.reg d }

/-- Spec-side notion used by claim C5: a path is located beneath a root
directory when it is the root itself or sits strictly below it.  This is the
property the specification's `InvalidTarget` guard is about; the code
approximates it with a plain string-prefix test. -/
def beneath (root p : GoStr) : Bool :=
  p == root || isPre (root ++ ['/']) p

/-!
Concrete sample values used by the closed theorems below.  `tmpRoot` plays
the role of `os.TempDir()` on a stock Linux host; the directory names follow
the library's `commandmocker-` naming, shortened for readability.
-/

/-- Sample temp root, the value of `os.TempDir()`. -/
def tmpRoot : GoStr := "/tmp".data

/-- Sample mocked command name. -/
def sshName : GoStr := "ssh".data

/-- Sample instance directory under the temp root. -/
def dirA : GoStr := "/tmp/cm-a".data

/-- Sample initial `$PATH` value. -/
def binPath : GoStr := "/bin".data

/-- Sample state with an empty registry. -/
def stEmpty : MState := { running := [], path := binPath, fs := [] }

/-- Sample state in which `ssh → /tmp/cm-a` is registered. -/
def stSsh : MState := { running := [(sshName, dirA)], path := binPath, fs := [] }

/-- Sample state whose search path contains `/tmp/cm-a` only as a proper
substring of the longer segment `/tmp/cm-ab`. -/
def stSubstr : MState :=
  { running := [], path := "/tmp/cm-ab:/bin".data
    fs := [dirA, "/tmp/cm-a/x".data] }

/-- Sample state whose search path contains `/tmp/cm-a` both as a proper
substring of an earlier segment and as a complete middle segment. -/
def stConfound : MState :=
  { running := [], path := "/tmp/cm-ab:/tmp/cm-a:/bin".data, fs := [] }

/-- Sample state whose search path has `/tmp/cm-a` as its first segment. -/
def stFront : MState :=
  { running := [(sshName, dirA)], path := "/tmp/cm-a:/bin".data, fs := [dirA] }

/-- Sample state whose search path starts with the non-temp directory
`/tmpfoo`, which shares the temp root as a string prefix without lying
beneath it. -/
def stTmpfoo : MState :=
  { running := [], path := "/tmpfoo:/bin".data, fs := ["/tmpfoo".data] }

/-- Concurrency-model state: first instance live, thread B at its
check loop. -/
def w0 : CState := { reg := [(['s'], ['a'])], pcB := .checking }

/-- Concurrency-model state after the first instance is unregistered. -/
def w1 : CState := { reg := [], pcB := .checking }

/-- Concurrency-model state after thread B's successful check. -/
def w2 : CState := { reg := [], pcB := .inserting }

/-- Concurrency-model state after thread B registers. -/
def w3 : CState := { reg := [(['s'], ['b'])], pcB := .done }

/-!
Helper lemmas about the string primitives.
-/

/-- Characterisation of the Boolean prefix test. -/
theorem isPre_iff {p s : GoStr} : isPre p s = true ↔ ∃ t, s = p ++ t := by
  induction p generalizing s with
  | nil => simp [isPre]
  | cons a p ih =>
    cases s with
    | nil => simp [isPre]
    | cons b t =>
      simp only [isPre, Bool.and_eq_true, decide_eq_true_eq, ih]
      constructor
      · rintro ⟨rfl, u, rfl⟩
        exact ⟨u, rfl⟩
      · rintro ⟨u, hu⟩
        cases hu
        exact ⟨rfl, u, rfl⟩

/-- A list passes the prefix test against itself followed by anything. -/
theorem isPre_append (p t : GoStr) : isPre p (p ++ t) = true :=
  isPre_iff.mpr ⟨t, rfl⟩

/-- A successful `goIndex` points at an occurrence of the pattern. -/
theorem goIndex_some {sub s : GoStr} {i : Nat} (h : goIndex sub s = some i) :
    isPre sub (s.drop i) = true := by
  induction s generalizing i with
  | nil =>
    simp only [goIndex] at h
    split at h
    · cases h
      simpa using ‹isPre sub [] = true›
    · cases h
  | cons c t ih =>
    simp only [goIndex] at h
    split at h
    · cases h
      simpa using ‹isPre sub (c :: t) = true›
    · cases hrec : goIndex sub t with
      | none => rw [hrec] at h; cases h
      | some j =>
        rw [hrec] at h
        simp only [Option.map_some', Option.some.injEq] at h
        subst h
        simpa [List.drop] using ih hrec

/-- Two distinct members force length at least two. -/
theorem two_le_length_of_two_mem {α : Type} [DecidableEq α] {a b : α} {l : List α}
    (ha : a ∈ l) (hb : b ∈ l) (hne : a ≠ b) : 2 ≤ l.length := by
  have hb' : b ∈ l.erase a := (List.mem_erase_of_ne (Ne.symm hne)).mpr hb
  have h1 : 1 ≤ (l.erase a).length := List.length_pos.mpr (List.ne_nil_of_mem hb')
  have h2 : (l.erase a).length = l.length - 1 := List.length_erase_of_mem ha
  have h3 : 1 ≤ l.length := List.length_pos.mpr (List.ne_nil_of_mem ha)
  omega

/-- The deferred cleanup of `Remove` erases every registry entry whose value
is `d`, provided at most one entry carries that value. -/
theorem removeCleanup_no_value {running : List (GoStr × GoStr)} {d : GoStr}
    (hu : (running.filter (fun p => p.2 == d)).length ≤ 1) :
    ∀ n, (n, d) ∉ removeCleanup running d := by
  intro n hmem
  unfold removeCleanup at hmem
  cases hf : running.find? (fun p => p.2 == d) with
  | none =>
    rw [hf] at hmem
    simp only [Option.map_none', Option.getD_none] at hmem
    have hin : (n, d) ∈ running := List.mem_of_mem_filter hmem
    have := List.find?_eq_none.mp hf (n, d) hin
    simp at this
  | some q =>
    rw [hf] at hmem
    simp only [Option.map_some', Option.getD_some] at hmem
    have hq2 : q.2 = d := by
      have := List.find?_some hf
      simpa using this
    have hqmem : q ∈ running := List.mem_of_find?_eq_some hf
    have hin : (n, d) ∈ running := List.mem_of_mem_filter hmem
    have hkeep : (!((n, d).1 == q.1)) = true := (List.mem_filter.mp hmem).2
    have hne : n ≠ q.1 := by simpa using hkeep
    have hmemf1 : (n, d) ∈ running.filter (fun p => p.2 == d) := by
      apply List.mem_filter.mpr
      exact ⟨hin, by simp⟩
    have hmemf2 : q ∈ running.filter (fun p => p.2 == d) := by
      apply List.mem_filter.mpr
      exact ⟨hqmem, by simp [hq2]⟩
    have hnepair : (n, d) ≠ q := by
      intro he
      exact hne (by rw [← he])
    have := two_le_length_of_two_mem hmemf1 hmemf2 hnepair
    omega

/-- The registry component of the state returned by `Remove` is the cleaned
registry, on every control path (the cleanup is deferred and runs even when
the path edit faults). -/
theorem Remove_running_eq (st : MState) (tmproot d : GoStr) (s r : Bool) :
    ((Remove st tmproot d s r).2).running = removeCleanup st.running d := by
  unfold Remove
  split
  · rfl
  · split
    · rfl
    · split
      · split
        · split <;> rfl
        · rfl
      · rfl

/-- Claim C9: `Ran(tempdir)` is true exactly when the ran-marker file
`tempdir/.ran` exists; a missing marker yields `false`, not an error. -/
theorem C9_ran_iff_marker (fs : List GoStr) (tempdir : GoStr) :
    Ran fs tempdir = true ↔ ranFile tempdir ∈ fs := by
  by_cases h : ranFile tempdir ∈ fs <;> simp [Ran, goStat, h]

/-- Claim C6: every call to `Remove(directory)` — whatever its outcome —
removes from the registry the entry whose value equals `directory` (matched
by directory value, not by name), provided at most one entry carries that
value, as is the case for registries built by `add`. -/
theorem C6_registry_cleanup_by_value (st : MState) (tmproot d : GoStr)
    (setenvOk rmOk : Bool)
    (hu : (st.running.filter (fun p => p.2 == d)).length ≤ 1) :
    ∀ n, (n, d) ∉ ((Remove st tmproot d setenvOk rmOk).2).running := by
  intro n
  rw [Remove_running_eq]
  exact removeCleanup_no_value hu n

/-- Claim C6, witness: removing `/tmp/cm-a` from a state registering
`ssh → /tmp/cm-a` leaves no registry entry with that directory value. -/
theorem C6_registry_cleanup_by_value_witness :
    ((stSsh.running.filter (fun p => p.2 == dirA)).length ≤ 1)
    ∧ (sshName, dirA) ∉ ((Remove stSsh tmpRoot dirA true true).2).running :=
  ⟨by decide, C6_registry_cleanup_by_value stSsh tmpRoot dirA true true (by decide) sshName⟩

/-- Claim C5 as stated is false on the code: `/tmpfoo` does not lie beneath
the temp root `/tmp`, yet `Remove("/tmpfoo")` — with `/tmpfoo` present in
the search path — does not return `InvalidTarget`: the guard is the string
test `strings.HasPrefix("/tmpfoo", "/tmp")`, which passes, so the call
succeeds, edits the search path and deletes `/tmpfoo` from the filesystem. -/
theorem C5_counterexample :
    beneath tmpRoot ("/tmpfoo".data) = false
    ∧ (Remove stTmpfoo tmpRoot ("/tmpfoo".data) true true).1 = .ok
    ∧ (Remove stTmpfoo tmpRoot ("/tmpfoo".data) true true).1 ≠ .invalidTarget
    ∧ (Remove stTmpfoo tmpRoot ("/tmpfoo".data) true true).2.path ≠ stTmpfoo.path
    ∧ ("/tmpfoo".data) ∉ (Remove stTmpfoo tmpRoot ("/tmpfoo".data) true true).2.fs := by
  decide

/-- Claim C5, amended: if `directory` does not have the temp root as a
string prefix (the test the code actually performs), `Remove` returns
`InvalidTarget`, deletes nothing from the filesystem, and leaves the
search-path value unchanged. -/
theorem C5_amended_invalid_target (st : MState) (tmproot d : GoStr) (s r : Bool)
    (h : isPre tmproot d = false) :
    (Remove st tmproot d s r).1 = .invalidTarget
    ∧ (Remove st tmproot d s r).2.path = st.path
    ∧ (Remove st tmproot d s r).2.fs = st.fs := by
  unfold Remove
  simp [h]

/-- Claim C5, witness: `Remove("/etc")` fails with `InvalidTarget` and
touches neither the search path nor the filesystem. -/
theorem C5_amended_invalid_target_witness :
    isPre tmpRoot ("/etc".data) = false
    ∧ ((Remove stSsh tmpRoot ("/etc".data) true true).1 = .invalidTarget
       ∧ (Remove stSsh tmpRoot ("/etc".data) true true).2.path = stSsh.path
       ∧ (Remove stSsh tmpRoot ("/etc".data) true true).2.fs = stSsh.fs) :=
  ⟨by decide, C5_amended_invalid_target stSsh tmpRoot ("/etc".data) true true (by decide)⟩

/-- Claim C4 as stated is false on the code: in `stSubstr`, the directory
`/tmp/cm-a` lies beneath the temp root and occurs in the search path
`/tmp/cm-ab:/bin` only as a proper substring of the longer segment
`/tmp/cm-ab` — not as a complete segment — yet `Remove` does not return a
`NotInSearchPath` error: `strings.Index` finds the substring, the call
succeeds, rewrites the search path and deletes the directory tree. -/
theorem C4_counterexample :
    isPre tmpRoot dirA = true
    ∧ dirA ∉ splitOnChar ':' stSubstr.path
    ∧ (Remove stSubstr tmpRoot dirA true true).1 = .ok
    ∧ (Remove stSubstr tmpRoot dirA true true).1 ≠ .notInSearchPath
    ∧ (Remove stSubstr tmpRoot dirA true true).2.path ≠ stSubstr.path
    ∧ dirA ∈ stSubstr.fs
    ∧ dirA ∉ (Remove stSubstr tmpRoot dirA true true).2.fs := by
  decide

/-- Claim C4, amended: if `directory` lies beneath the temp root (in the
code's sense of a string prefix) and does not occur in the search-path value
even as a substring, then `Remove` returns the `NotInSearchPath` error and
neither modifies the search path nor deletes anything from the
filesystem. -/
theorem C4_amended_not_in_search_path (st : MState) (tmproot d : GoStr) (s r : Bool)
    (hpre : isPre tmproot d = true)
    (hidx : goIndex d st.path = none) :
    (Remove st tmproot d s r).1 = .notInSearchPath
    ∧ (Remove st tmproot d s r).2.path = st.path
    ∧ (Remove st tmproot d s r).2.fs = st.fs := by
  unfold Remove
  simp [hpre, hidx]

/-- Claim C4, witness: removing `/tmp/cm-a` when the search path is `/bin`
yields `NotInSearchPath` and changes nothing. -/
theorem C4_amended_not_in_search_path_witness :
    (isPre tmpRoot dirA = true ∧ goIndex dirA stSsh.path = none)
    ∧ ((Remove stSsh tmpRoot dirA true true).1 = .notInSearchPath
       ∧ (Remove stSsh tmpRoot dirA true true).2.path = stSsh.path
       ∧ (Remove stSsh tmpRoot dirA true true).2.fs = stSsh.fs) :=
  ⟨⟨by decide, by decide⟩,
    C4_amended_not_in_search_path stSsh tmpRoot dirA true true (by decide) (by decide)⟩

/-- Claim C1 is the specification's required registry-cleanup-on-failure
behaviour, and the code violates it: when `os.MkdirAll` fails after
`running[name] = tempdir` has been recorded, `add` returns the error with
the registry entry still in place, so a later `add` for the same name blocks
forever (modelled by `none`). -/
theorem C1_registry_leak_after_failure :
    add stEmpty sshName ("out".data) [] 0 dirA false true true true
      = some (.error .mkdirFailed, stSsh)
    ∧ lookupName stSsh.running sshName = some dirA
    ∧ add stSsh sshName ("out".data) [] 0 ("/tmp/cm-b".data) true true true true
      = none := by
  decide

/-- Claim C7 as stated is false on the code: `add` assigns the `os.Setenv`
error to `err` but never checks it, so when the environment update fails the
call still returns success while the search-path value is left unchanged
rather than equal to `tempdir + ":" + oldpath`. -/
theorem C7_counterexample :
    add stEmpty sshName ("out".data) [] 0 dirA true true true false
      = some (.ok dirA,
          { running := [(sshName, dirA)], path := binPath
            fs := [dirA ++ '/' :: sshName, dirA] })
    ∧ binPath ≠ dirA ++ ':' :: binPath := by
  decide

/-- Claim C7, amended: after every successful `add` call in which the
search-path commit (`os.Setenv`) succeeded, the search-path value equals the
returned directory, followed by one delimiter, followed by the search-path
value current immediately before the update; the returned directory is thus
the first segment of the new value. -/
theorem C7_path_prepended (st : MState) (name so se : GoStr) (status : Int)
    (tempdir : GoStr) (m o e : Bool) (d : GoStr) (st' : MState)
    (h : add st name so se status tempdir m o e true = some (.ok d, st')) :
    d = tempdir ∧ st'.path = d ++ ':' :: st.path := by
  unfold add at h
  split at h
  · cases h
  · split at h
    · simp at h
    · split at h
      · simp at h
      · split at h
        · simp at h
        · simp only [Option.some.injEq, Prod.mk.injEq, Except.ok.injEq] at h
          obtain ⟨rfl, rfl⟩ := h
          exact ⟨rfl, rfl⟩

/-- Claim C7, witness: a concrete successful `add` whose new search path is
the returned directory prepended to the old value. -/
theorem C7_path_prepended_witness :
    (add stEmpty sshName ("out".data) [] 0 dirA true true true true
      = some (.ok dirA,
          { running := [(sshName, dirA)]
            path := dirA ++ ':' :: binPath
            fs := [dirA ++ '/' :: sshName, dirA] }))
    ∧ (dirA = dirA
       ∧ ({ running := [(sshName, dirA)]
            path := dirA ++ ':' :: binPath
            fs := [dirA ++ '/' :: sshName, dirA] } : MState).path = dirA ++ ':' :: stEmpty.path) :=
  ⟨by decide,
    C7_path_prepended stEmpty sshName ("out".data) [] 0 dirA true true true dirA _ (by decide)⟩

/-- Claim C10: when `Remove` has located `directory` in the search path (at
first-occurrence index `i`, within slice bounds) and the `os.Setenv` commit
of the edited value fails, the call returns that error, the filesystem is
untouched, and the registry entry for `directory` is nevertheless removed. -/
theorem C10_env_commit_failure (st : MState) (tmproot d : GoStr) (rmOk : Bool) (i : Nat)
    (hpre : isPre tmproot d = true)
    (hidx : goIndex d st.path = some i)
    (hbound : i + d.length + 1 ≤ st.path.length)
    (hu : (st.running.filter (fun p => p.2 == d)).length ≤ 1) :
    (Remove st tmproot d false rmOk).1 = .envError
    ∧ (Remove st tmproot d false rmOk).2.fs = st.fs
    ∧ ∀ n, (n, d) ∉ (Remove st tmproot d false rmOk).2.running := by
  refine ⟨?_, ?_, ?_⟩
  · unfold Remove
    simp [hpre, hidx, hbound]
  · unfold Remove
    simp [hpre, hidx, hbound]
  · intro n
    rw [Remove_running_eq]
    exact removeCleanup_no_value hu n

/-- Claim C10, witness: a failing environment commit on `stFront` surfaces
`envError`, leaves the filesystem intact, and still clears the registry
entry for the directory. -/
theorem C10_env_commit_failure_witness :
    (isPre tmpRoot dirA = true
     ∧ goIndex dirA stFront.path = some 0
     ∧ 0 + dirA.length + 1 ≤ stFront.path.length
     ∧ (stFront.running.filter (fun p => p.2 == dirA)).length ≤ 1)
    ∧ ((Remove stFront tmpRoot dirA false true).1 = .envError
       ∧ (Remove stFront tmpRoot dirA false true).2.fs = stFront.fs
       ∧ ∀ n, (n, dirA) ∉ (Remove stFront tmpRoot dirA false true).2.running) :=
  ⟨⟨by decide, by decide, by decide, by decide⟩,
    C10_env_commit_failure stFront tmpRoot dirA true 0
      (by decide) (by decide) (by decide) (by decide)⟩

/-- Claim C3 as stated is false on the code: in `stConfound` the directory
`/tmp/cm-a` occurs as a complete colon-delimited segment (the middle one of
`/tmp/cm-ab:/tmp/cm-a:/bin`), and `Remove` succeeds, but the produced value
is not the old one with that segment and one adjacent delimiter removed
(which is uniquely `/tmp/cm-ab:/bin` here): `strings.Index` finds the
earlier occurrence of `/tmp/cm-a` as a substring of `/tmp/cm-ab`, and the
blind `len+1` excision yields `:/tmp/cm-a:/bin`, mangling the first segment
and keeping the target one. -/
theorem C3_counterexample :
    dirA ∈ splitOnChar ':' stConfound.path
    ∧ (Remove stConfound tmpRoot dirA true true).1 = .ok
    ∧ (Remove stConfound tmpRoot dirA true true).2.path = (":/tmp/cm-a:/bin".data)
    ∧ (Remove stConfound tmpRoot dirA true true).2.path ≠ ("/tmp/cm-ab:/bin".data) := by
  decide

/-- Claim C3, amended: for every search-path value in which `directory`
occurs as a complete colon-delimited segment such that the first substring
occurrence of `directory` in the value is that segment occurrence, a
successful `Remove(directory)` produces a new value equal to the old one
with exactly that segment and its one adjacent delimiter removed, every
other segment unchanged.  (The occurrence must be followed by a delimiter
for the call to succeed: on a final segment with no trailing delimiter the
slice upper bound exceeds the value's length and the call faults instead of
returning.) -/
theorem C3_amended_segment_excised (st : MState) (tmproot d : GoStr) (i : Nat)
    (hidx : goIndex d st.path = some i)
    (_hstart : i = 0 ∨ (st.path.take i).getLast? = some ':')
    (hend : st.path.drop (i + d.length) = []
            ∨ ∃ suf, st.path.drop (i + d.length) = ':' :: suf)
    (hok : (Remove st tmproot d true true).1 = .ok) :
    ∃ pre suf, st.path = pre ++ d ++ ':' :: suf
      ∧ (Remove st tmproot d true true).2.path = pre ++ suf := by
  have hpre : isPre tmproot d = true := by
    by_contra hn
    have hn' : isPre tmproot d = false := by simpa using hn
    unfold Remove at hok
    simp [hn'] at hok
  have hbound : i + d.length + 1 ≤ st.path.length := by
    by_contra hn
    unfold Remove at hok
    simp [hpre, hidx, hn] at hok
  have hpath : (Remove st tmproot d true true).2.path
      = st.path.take i ++ st.path.drop (i + d.length + 1) := by
    unfold Remove
    simp [hpre, hidx, hbound]
  obtain ⟨t, ht⟩ := isPre_iff.mp (goIndex_some hidx)
  have hdlen : st.path.drop (i + d.length) = t := by
    rw [← List.drop_drop, ht, List.drop_left]
  have htne : st.path.drop (i + d.length) ≠ [] := by
    intro hnil
    have hlen := congrArg List.length hnil
    rw [List.length_drop] at hlen
    simp at hlen
    omega
  rcases hend with he | ⟨suf, hsuf⟩
  · exact absurd he htne
  · have ht2 : st.path.drop i = d ++ ':' :: suf := by
      rw [ht, ← hdlen, hsuf]
    refine ⟨st.path.take i, suf, ?_, ?_⟩
    · conv_lhs => rw [← List.take_append_drop i st.path, ht2]
      rw [List.append_assoc]
    · rw [hpath]
      have hdr : st.path.drop (i + d.length + 1) = suf := by
        rw [← List.drop_drop, hsuf, List.drop_succ_cons, List.drop_zero]
      rw [hdr]

/-- Claim C3, witness: removing `/tmp/cm-a` from the front of
`/tmp/cm-a:/bin` excises exactly that segment and its delimiter. -/
theorem C3_amended_segment_excised_witness :
    ∃ pre suf, stFront.path = pre ++ dirA ++ ':' :: suf
      ∧ (Remove stFront tmpRoot dirA true true).2.path = pre ++ suf :=
  C3_amended_segment_excised stFront tmpRoot dirA 0 (by decide) (Or.inl rfl)
    (Or.inr ⟨"/bin".data, by decide⟩) (by decide)

/-!
Lemmas for the parameters log (claim C8).
-/

/-- The splitter never returns an empty list of parts. -/
theorem splitOnChar_ne_nil (sep : Char) (l : List Char) : splitOnChar sep l ≠ [] := by
  cases l with
  | nil => simp [splitOnChar]
  | cons c t =>
    simp only [splitOnChar]
    cases h : splitOnChar sep t with
    | nil => simp
    | cons hh r =>
      split
      · simp
      · split <;> simp

/-- A part without the separator is returned whole. -/
theorem splitOnChar_of_not_mem {sep : Char} {l : List Char} (h : sep ∉ l) :
    splitOnChar sep l = [l] := by
  induction l with
  | nil => rfl
  | cons c t ih =>
    have hc : c ≠ sep := fun he => h (he ▸ List.mem_cons_self c t)
    have ht : sep ∉ t := fun hm => h (List.mem_cons_of_mem c hm)
    simp only [splitOnChar, ih ht]
    simp [hc]

/-- Splitting a separator-free part followed by a separator peels off that
part. -/
theorem splitOnChar_append_cons {sep : Char} {a : List Char} (t : List Char)
    (h : sep ∉ a) :
    splitOnChar sep (a ++ sep :: t) = a :: splitOnChar sep t := by
  induction a with
  | nil =>
    simp only [List.nil_append, splitOnChar]
    cases hs : splitOnChar sep t with
    | nil => exact absurd hs (splitOnChar_ne_nil sep t)
    | cons hh r => simp
  | cons c a ih =>
    have hc : c ≠ sep := fun he => h (he ▸ List.mem_cons_self c a)
    have ha : sep ∉ a := fun hm => h (List.mem_cons_of_mem c hm)
    simp only [List.cons_append, splitOnChar, List.append_eq]
    rw [ih ha]
    simp [hc]

/-- The sed substitution deletes a pattern standing at the head of the
line. -/
theorem stripFirst_of_head (p t : GoStr) (hp : p ≠ []) :
    stripFirst p (p ++ t) = t := by
  cases p with
  | nil => exact absurd rfl hp
  | cons c p' =>
    simp only [List.cons_append, stripFirst]
    rw [if_pos]
    · show (List.drop (c :: p').length ((c :: p') ++ t)) = t
      exact List.drop_left (c :: p') t
    · exact isPre_append (c :: p') t

/-- For newline-free arguments, each loop iteration of the script appends
exactly the argument followed by a newline. -/
theorem paramsContent_eq (args : List GoStr) (h : ∀ a ∈ args, '\n' ∉ a) :
    paramsContent args = args.flatMap (fun a => a ++ ['\n']) := by
  induction args with
  | nil => rfl
  | cons a rest ih =>
    have ha : '\n' ∉ a := h a (List.mem_cons_self a rest)
    have hrest : ∀ b ∈ rest, '\n' ∉ b := fun b hb => h b (List.mem_cons_of_mem a hb)
    have hnl : '\n' ∉ ddash ++ a := by
      intro hm
      rcases List.mem_append.mp hm with hmem | hmem
      · simp [ddash] at hmem
      · exact ha hmem
    simp only [paramsContent, List.flatMap_cons] at *
    rw [ih hrest, splitOnChar_of_not_mem hnl]
    simp only [List.flatMap_cons, List.flatMap_nil, List.append_nil]
    rw [stripFirst_of_head ddash a (by simp [ddash])]

/-- Splitting the concatenation of newline-terminated, newline-free parts
recovers the parts, plus the empty rest after the final newline. -/
theorem splitOnChar_terminated (args : List GoStr) (h : ∀ a ∈ args, '\n' ∉ a) :
    splitOnChar '\n' (args.flatMap (fun a => a ++ ['\n'])) = args ++ [[]] := by
  induction args with
  | nil => rfl
  | cons a rest ih =>
    have ha : '\n' ∉ a := h a (List.mem_cons_self a rest)
    have hrest : ∀ b ∈ rest, '\n' ∉ b := fun b hb => h b (List.mem_cons_of_mem a hb)
    simp only [List.flatMap_cons, List.append_assoc, List.singleton_append]
    rw [splitOnChar_append_cons _ ha, ih hrest]
    rfl

/-- Tokens with no trailing carriage return pass `dropCR` unchanged. -/
theorem dropCR_eq_self {a : GoStr} (h : a.getLast? ≠ some '\r') : dropCR a = a := by
  unfold dropCR
  cases hl : a.getLast? with
  | none => rfl
  | some c =>
    have hc : c ≠ '\r' := fun he => h (by rw [hl, he])
    simp [hc]

/-- Mapping `dropCR` over tokens without trailing carriage returns is the
identity. -/
theorem map_dropCR_eq (args : List GoStr)
    (h2 : ∀ a ∈ args, a.getLast? ≠ some '\r') :
    args.map dropCR = args := by
  induction args with
  | nil => rfl
  | cons a rest ih =>
    have ha : dropCR a = a := dropCR_eq_self (h2 a (List.mem_cons_self a rest))
    simp only [List.map_cons, ha, List.cons.injEq, true_and]
    exact ih (fun b hb => h2 b (List.mem_cons_of_mem a hb))

/-- Claim C8 as stated is false on the code: one run with the single
argument `"a\nb"` (embedded newline — whitespace that must survive as a
single entry) produces two parameter-log lines, so `Parameters` returns the
two entries `a` and `b` instead of the argument itself: `echo` writes the
argument over two lines and both sed and the line scanner treat them
independently. -/
theorem C8_counterexample :
    Parameters (some (paramsContent [['a', '\n', 'b']])) = [['a'], ['b']]
    ∧ Parameters (some (paramsContent [['a', '\n', 'b']])) ≠ [['a', '\n', 'b']] := by
  decide

/-- Claim C8, amended: for every argument vector in which no argument
contains a newline and no argument ends with a carriage return, after
exactly one run of the generated executable with that vector,
`Parameters` returns exactly that vector — one entry per argument, in
order, each argument reproduced verbatim as its own line of the parameters
log (arguments with embedded spaces stay single entries). -/
theorem C8_params_verbatim (args : List GoStr)
    (h : ∀ a ∈ args, '\n' ∉ a ∧ a.getLast? ≠ some '\r') :
    Parameters (some (paramsContent args)) = args := by
  have h1 : ∀ a ∈ args, '\n' ∉ a := fun a ha => (h a ha).1
  show scanLines (paramsContent args) = args
  rw [paramsContent_eq args h1]
  simp only [scanLines]
  rw [splitOnChar_terminated args h1, List.getLast?_concat]
  rw [if_pos rfl, List.dropLast_concat]
  exact map_dropCR_eq args (fun a ha => (h a ha).2)

/-- Claim C8, witness: the concrete scenario's vector
`["-l", "root", "127.0.0.1"]` (space-free, newline-free) is reproduced
exactly. -/
theorem C8_params_verbatim_witness :
    (∀ a ∈ ([("-l".data), ("root".data), ("127.0.0.1".data)] : List GoStr),
        '\n' ∉ a ∧ a.getLast? ≠ some '\r')
    ∧ Parameters (some (paramsContent [("-l".data), ("root".data), ("127.0.0.1".data)]))
        = [("-l".data), ("root".data), ("127.0.0.1".data)] :=
  ⟨by decide, C8_params_verbatim _ (by decide)⟩

/-- Claim C2: in the interleaved model of the registration protocol, a
second `add` call for name `nB` that starts its check loop while a first
instance is live under `nB` serialises behind it — if the call eventually
completes its registration (reaches `done`), then at some intermediate
state, still before the call proceeded past its check loop, the name had
been unregistered.  The call never fails: no transition of the model
produces an error for thread B. -/
theorem C2_second_call_waits (nB dB : GoStr) (s s' : CState)
    (hsteps : Relation.ReflTransGen (AStep nB dB) s s')
    (_hlive : (lookupName s.reg nB).isSome = true)
    (hstart : s.pcB = .checking)
    (hdone : s'.pcB = .done) :
    ∃ t : CState, Relation.ReflTransGen (AStep nB dB) s t
      ∧ Relation.ReflTransGen (AStep nB dB) t s'
      ∧ t.pcB = .checking ∧ lookupName t.reg nB = none := by
  revert hstart
  clear _hlive
  induction hsteps using Relation.ReflTransGen.head_induction_on with
  | refl =>
    intro hstart
    simp [hstart] at hdone
  | @head a c hstep hrest ih =>
    intro hstart
    cases hstep with
    | check hpc hfree =>
      exact ⟨a, Relation.ReflTransGen.refl,
        Relation.ReflTransGen.head (AStep.check a hpc hfree) hrest, hstart, hfree⟩
    | insert hpc =>
      simp [hstart] at hpc
    | envInsert n d =>
      obtain ⟨t, h1, h2, h3, h4⟩ := ih hstart
      exact ⟨t, Relation.ReflTransGen.head (AStep.envInsert a n d) h1, h2, h3, h4⟩
    | envRemove d =>
      obtain ⟨t, h1, h2, h3, h4⟩ := ih hstart
      exact ⟨t, Relation.ReflTransGen.head (AStep.envRemove a d) h1, h2, h3, h4⟩

/-- Claim C2, witness: a concrete three-step execution — unregister the
first instance, check, insert — in which the second call completes, with
the intermediate unregistered state exhibited. -/
theorem C2_second_call_waits_witness :
    ∃ t : CState, Relation.ReflTransGen (AStep ['s'] ['b']) w0 t
      ∧ Relation.ReflTransGen (AStep ['s'] ['b']) t w3
      ∧ t.pcB = .checking ∧ lookupName t.reg ['s'] = none :=
  C2_second_call_waits ['s'] ['b'] w0 w3
    (Relation.ReflTransGen.head
      (show AStep ['s'] ['b'] w0 w1 from AStep.envRemove w0 ['a'])
      (Relation.ReflTransGen.head
        (show AStep ['s'] ['b'] w1 w2 from AStep.check w1 rfl rfl)
        (Relation.ReflTransGen.head
          (show AStep ['s'] ['b'] w2 w3 from AStep.insert w2 rfl)
          Relation.ReflTransGen.refl)))
    (by decide) rfl rfl
